import Mathlib

/-!
Verification development for the ad-free proxy server (src/server.js).

The server exposes one endpoint, POST /fetch.  Per request it validates the
target URL, fetches the page, parses it into a DOM, removes ad elements
structurally and heuristically, extracts article content with a
readability-style extractor (falling back to the absolutized document body),
sanitizes the chosen fragment through an allow list, and serves it inside a
fixed wrapper page.

The embedding below models the DOM as a tree of elements and text nodes.
HTML parsing, the readability extractor, the sanitizer and the URL library
are external collaborators of the repository; the sanitizer and the URL
resolver are modelled from their documented behavior (allow-list filtering,
WHATWG-style resolution), while the extractor is kept abstract as a function
parameter, since the server only consumes its result.  Tag names are taken
to be lowercase, as produced by the HTML parsers involved.
-/

set_option maxHeartbeats 1000000

namespace AdFreeProxy

/- DOM node: an element carries its lowercase tag name, a flag recording
whether it lives outside the HTML namespace (for such elements, for example
SVG elements, the DOM className property is not a plain string), its
attribute list in document order, and its children.  Text content is a text
node. -/
mutual
inductive Node where
  | text (s : String)
  | elem (tag : String) (svg : Bool) (attrs : List (String × String)) (children : NodeList)
inductive NodeList where
  | nil
  | cons (head : Node) (tail : NodeList)
end

deriving instance DecidableEq for Node, NodeList

def NodeList.append : NodeList → NodeList → NodeList
  | .nil, ys => ys
  | .cons x xs, ys => .cons x (NodeList.append xs ys)

def NodeList.ofList : List Node → NodeList
  | [] => .nil
  | n :: ns => .cons n (NodeList.ofList ns)

/-- First value of the named attribute, as getAttribute returns it. -/
def getAttr : List (String × String) → String → Option String
  | [], _ => none
  | (a, v) :: rest, n => if a = n then some v else getAttr rest n

/-- setAttribute: replace the value of the first attribute with this name,
or append the pair at the end when the name is not present. -/
def setAttr : List (String × String) → String → String → List (String × String)
  | [], n, v => [(n, v)]
  | (a, b) :: rest, n, v => if a = n then (n, v) :: rest else (a, b) :: setAttr rest n v

/-! ### Heuristic ad patterns (server.js lines 56 to 64) -/

def lowerChars (s : String) : List Char := s.data.map Char.toLower

def listPrefixCh : List Char → List Char → Bool
  | [], _ => true
  | _ :: _, [] => false
  | a :: as, b :: bs => decide (a = b) && listPrefixCh as bs

def listContainsCh (pat : List Char) : List Char → Bool
  | [] => pat.isEmpty
  | c :: rest => listPrefixCh pat (c :: rest) || listContainsCh pat rest

/-- Case-insensitive substring test: models `.test` of an i-flagged regular
expression whose pattern is a plain literal.  The i flag of the JavaScript
engine folds the case of basic latin letters, as Char.toLower does. -/
def containsCI (s : String) (pat : String) : Bool :=
  listContainsCh (lowerChars pat) (lowerChars s)

def patAdvert (s : String) : Bool := containsCI s "advert"

/-- The regular expression /ads?/i matches exactly the strings containing
"ad" (the trailing s is optional), case-insensitively. -/
def patAds (s : String) : Bool := containsCI s "ad"

def patBanner (s : String) : Bool := containsCI s "banner"
def patSponsored (s : String) : Bool := containsCI s "sponsored"
def patPromoted (s : String) : Bool := containsCI s "promoted"

/-- const adPatterns = [/advert/i, /ads?/i, /banner/i, /sponsored/i, /promoted/i] -/
def adPatterns : List (String → Bool) :=
  [patAdvert, patAds, patBanner, patSponsored, patPromoted]

/-- for (const p of adPatterns) if (p.test(id) || p.test(cls)) break — the
short-circuiting for loop over the patterns is List.any, which stops at the
first pattern that matches. -/
def adMatch (id cls : String) : Bool := adPatterns.any fun p => p id || p cls

/-- const id = el.id || two-quote empty string: the id property reflects the
id attribute and is empty when the attribute is absent. -/
def idOf (attrs : List (String × String)) : String := (getAttr attrs "id").getD ""

/-- const cls = (el.className && typeof el.className === string) ? el.className
: empty — for elements outside the HTML namespace the className property is
an object, not a string, so the check falls back to the empty string. -/
def clsOf (svg : Bool) (attrs : List (String × String)) : String :=
  if svg then "" else (getAttr attrs "class").getD ""

/-- Removal condition of the heuristic ad sweep (server.js lines 58 to 64). -/
def rmAdP (_tag : String) (svg : Bool) (attrs : List (String × String)) : Bool :=
  adMatch (idOf attrs) (clsOf svg attrs)

/-! ### Structural removal (server.js lines 49 to 54) -/

def structuralTags : List String := ["script", "iframe", "ins", "amp-ad", "amp-analytics"]

/-- Removal condition of the structural sweep: the five tag selectors plus
the selector link[rel="preload"][as="script"]. -/
def rmStructP (tag : String) (_svg : Bool) (attrs : List (String × String)) : Bool :=
  decide (tag ∈ structuralTags) ||
    (decide (tag = "link") && decide (getAttr attrs "rel" = some "preload") &&
      decide (getAttr attrs "as" = some "script"))

/- One querySelectorAll-and-remove sweep.  The snapshot taken by
querySelectorAll visits every element; calling remove() on an element whose
ancestor was already removed is a no-op on the document, so the net effect
on the document tree is: an element is dropped together with its subtree
exactly when the removal condition holds of it, and the condition is
re-checked independently inside surviving elements. -/
mutual
def stripNode (rm : String → Bool → List (String × String) → Bool) : Node → Option Node
  | .text s => some (.text s)
  | .elem tag svg attrs cs =>
      if rm tag svg attrs then none
      else some (.elem tag svg attrs (stripL rm cs))
def stripL (rm : String → Bool → List (String × String) → Bool) : NodeList → NodeList
  | .nil => .nil
  | .cons n ns =>
      match stripNode rm n with
      | some m => .cons m (stripL rm ns)
      | none => stripL rm ns
end

/-- The document after both removal sweeps, in source order: first the
structural selectors, then the heuristic id/class sweep. -/
def cleanForest (doc : NodeList) : NodeList := stripL rmAdP (stripL rmStructP doc)

/-! ### Element predicates and occurrence -/

/- Does some element of the tree satisfy the predicate on its tag,
namespace flag and attributes? -/
mutual
def elemSatN (P : String → Bool → List (String × String) → Bool) : Node → Bool
  | .text _ => false
  | .elem tag svg attrs cs => P tag svg attrs || elemSatL P cs
def elemSatL (P : String → Bool → List (String × String) → Bool) : NodeList → Bool
  | .nil => false
  | .cons n ns => elemSatN P n || elemSatL P ns
end

/- Does the subtree m occur somewhere in the tree? -/
mutual
def occursN (m : Node) : Node → Bool
  | .text s => decide (m = .text s)
  | .elem tag svg attrs cs => decide (m = .elem tag svg attrs cs) || occursL m cs
def occursL (m : Node) : NodeList → Bool
  | .nil => false
  | .cons n ns => occursN m n || occursL m ns
end

/-- The predicate applied at the root of a node (false on text). -/
def rootSat (P : String → Bool → List (String × String) → Bool) : Node → Bool
  | .text _ => false
  | .elem tag svg attrs _ => P tag svg attrs

/-! ### URL resolution (the toAbsolute helper, server.js lines 16 to 22)

Modelled from the documented behavior of the WHATWG URL constructor used
through the node url module: new URL(resource, base) returns the resource
itself when it already carries a scheme, resolves protocol-relative,
root-relative and relative references against an http(s) base, and throws
otherwise (the model returns none where the constructor throws). -/

def schemeTailCh (c : Char) : Bool :=
  c.isAlphanum || decide (c = '+') || decide (c = '-') || decide (c = '.')

def schemeNameAux : List Char → Option (List Char)
  | [] => none
  | c :: rest =>
      if c = ':' then some []
      else if schemeTailCh c then (schemeNameAux rest).map (c :: ·) else none

/-- The scheme of an absolute URL reference, lowercased: a leading latin
letter, then letters, digits, plus, minus or dot, up to a colon. -/
def getScheme (s : String) : Option String :=
  match s.data with
  | [] => none
  | c :: rest =>
      if c.isAlpha then (schemeNameAux rest).map (fun l => ⟨(c :: l).map Char.toLower⟩)
      else none

def hasScheme (s : String) : Bool := (getScheme s).isSome

/-- The tail of /^https?:\x2f\x2f/i, after the four letters http: either
colon-slash-slash directly, or an s (either case) first. -/
def httpRest : List Char → Option (List Char × List Char)
  | ':' :: '/' :: '/' :: r => some (['h', 't', 't', 'p'], r)
  | c :: ':' :: '/' :: '/' :: r =>
      if c = 's' ∨ c = 'S' then some (['h', 't', 't', 'p', 's'], r) else none
  | _ => none

/-- The base URL accepted by the resolver: an http(s) URL, split into its
lowercased scheme and the part after the two slashes. -/
def parseHttpBase (base : String) : Option (List Char × List Char) :=
  match base.data with
  | c1 :: c2 :: c3 :: c4 :: rest =>
      if (decide (c1 = 'h') || decide (c1 = 'H')) && (decide (c2 = 't') || decide (c2 = 'T')) &&
          (decide (c3 = 't') || decide (c3 = 'T')) && (decide (c4 = 'p') || decide (c4 = 'P')) then
        httpRest rest
      else none
  | _ => none

/-- Validation regular expression of the handler: /^https?:\x2f\x2f/i
(server.js line 28). -/
def validTarget (t : String) : Bool := (parseHttpBase t).isSome

/-- The prefix of the path up to and including its last slash. -/
def dirChars : List Char → List Char
  | [] => []
  | c :: rest => if (c :: rest).any (fun x => decide (x = '/')) then c :: dirChars rest else []

/-- The directory of the base path, defaulting to the root slash. -/
def dirSlash (d : List Char) : List Char := if d.isEmpty then ['/'] else d

/-- A resolver result: the scheme, a colon, and the rest. -/
def mkOut (scheme x : List Char) : String := ⟨scheme ++ ':' :: x⟩

/-- new URL(resource, base), simplified: scheme-qualified references are
returned as given, protocol-relative references adopt the scheme of the
base, root-relative references adopt scheme and host, other references are
joined to the directory of the base path; none models the constructor
throwing (base not http(s), or empty host). -/
def urlResolve (resource base : String) : Option String :=
  if hasScheme resource then some resource
  else
    match parseHttpBase base with
    | none => none
    | some (scheme, rest) =>
        if listPrefixCh ['/', '/'] resource.data then some (mkOut scheme resource.data)
        else if (rest.takeWhile (fun c => !decide (c = '/'))).isEmpty then none
        else if listPrefixCh ['/'] resource.data then
          some (mkOut scheme ('/' :: '/' ::
            (rest.takeWhile (fun c => !decide (c = '/')) ++ resource.data)))
        else
          some (mkOut scheme ('/' :: '/' ::
            (rest.takeWhile (fun c => !decide (c = '/')) ++
              dirSlash (dirChars (rest.dropWhile (fun c => !decide (c = '/')))) ++
              resource.data)))

/-- function toAbsolute(resourceUrl, base): return the resolved URL, or the
resource unchanged when the URL constructor throws. -/
def toAbsolute (resourceUrl base : String) : String :=
  match urlResolve resourceUrl base with
  | some u => u
  | none => resourceUrl

/-! ### Fallback absolutization (server.js lines 79 to 92) -/

/-- Anchor rewriting: if the href attribute is present and not empty (an
empty string is falsy, so if (href) skips it), replace it with its
absolutized value; then force rel and target. -/
def absAnchorAttrs (target : String) (attrs : List (String × String)) : List (String × String) :=
  setAttr
    (setAttr
      (match getAttr attrs "href" with
        | some h => if h = "" then attrs else setAttr attrs "href" (toAbsolute h target)
        | none => attrs)
      "rel" "noopener noreferrer")
    "target" "_blank"

/-- Image rewriting: absolutize a present, non-empty src. -/
def absImgAttrs (target : String) (attrs : List (String × String)) : List (String × String) :=
  match getAttr attrs "src" with
  | some s => if s = "" then attrs else setAttr attrs "src" (toAbsolute s target)
  | none => attrs

/-- Attribute rewriting applied to one element by the two sweeps. -/
def absAttrs (target tag : String) (attrs : List (String × String)) : List (String × String) :=
  if tag = "a" then absAnchorAttrs target attrs
  else if tag = "img" then absImgAttrs target attrs
  else attrs

/- The two querySelectorAll sweeps over anchors and images; the type
selectors a and img match the tag in any namespace, and the per-element
rewrites are independent, so one traversal models both loops. -/
mutual
def absN (target : String) : Node → Node
  | .text s => .text s
  | .elem tag svg attrs cs => .elem tag svg (absAttrs target tag attrs) (absL target cs)
def absL (target : String) : NodeList → NodeList
  | .nil => .nil
  | .cons n ns => .cons (absN target n) (absL target ns)
end

/- doc.body: the children of the first body element (its innerHTML). -/
mutual
def findBodyN : Node → Option NodeList
  | .text _ => none
  | .elem tag _ _ cs => if tag = "body" then some cs else findBodyL cs
def findBodyL : NodeList → Option NodeList
  | .nil => none
  | .cons n ns =>
      match findBodyN n with
      | some r => some r
      | none => findBodyL ns
end

/-! ### Sanitization (server.js lines 95 to 104)

Modelled from the documented defaults of the sanitize-html library plus the
options passed at the call site: the default allow list of tags extended
with img and heading/table tags; attributes restricted per tag; elements
with a disallowed tag are dropped but their children kept, except the
nonTextTags whose entire content is discarded; href/src/cite values whose
scheme is not allowed are removed. -/

def sanitizeDefaultTags : List String :=
  ["address", "article", "aside", "footer", "header", "h1", "h2", "h3", "h4",
   "h5", "h6", "hgroup", "main", "nav", "section", "blockquote", "dd", "div",
   "dl", "dt", "figcaption", "figure", "hr", "li", "main", "ol", "p", "pre",
   "ul", "a", "abbr", "b", "bdi", "bdo", "br", "cite", "code", "data", "dfn",
   "em", "i", "kbd", "mark", "q", "rb", "rp", "rt", "rtc", "ruby", "s",
   "samp", "small", "span", "strong", "sub", "sup", "time", "u", "var", "wbr",
   "caption", "col", "colgroup", "table", "tbody", "td", "tfoot", "th",
   "thead", "tr"]

/-- sanitizeHtml.defaults.allowedTags.concat of img, h1, h2, h3, table,
thead, tbody, tr, th, td. -/
def allowedTags : List String :=
  sanitizeDefaultTags ++ ["img", "h1", "h2", "h3", "table", "thead", "tbody", "tr", "th", "td"]

/-- Disallowed tags whose text content is discarded rather than lifted. -/
def nonTextTags : List String := ["script", "style", "textarea", "option"]

/-- allowedAttributes of the call site: a gets href, name, target, rel; img
gets src, alt, title, width, height; every tag gets class, id, style. -/
def allowedAttrNames (tag : String) : List String :=
  (if tag = "a" then ["href", "name", "target", "rel"]
   else if tag = "img" then ["src", "alt", "title", "width", "height"]
   else []) ++ ["class", "id", "style"]

def allowedSchemes : List String := ["http", "https", "ftp", "mailto"]

/-- URL-valued attributes keep relative and protocol-relative values and
values with an allowed scheme. -/
def schemeOk (v : String) : Bool :=
  match getScheme v with
  | none => true
  | some sch => decide (sch ∈ allowedSchemes)

def keepAttr (tag name value : String) : Bool :=
  decide (name ∈ allowedAttrNames tag) &&
    (!decide (name ∈ ["href", "src", "cite"]) || schemeOk value)

def attrFilter (tag : String) (attrs : List (String × String)) : List (String × String) :=
  attrs.filter fun p => keepAttr tag p.1 p.2

mutual
def sanitizeN : Node → NodeList
  | .text s => .cons (.text s) .nil
  | .elem tag svg attrs cs =>
      if decide (tag ∈ allowedTags) then
        .cons (.elem tag svg (attrFilter tag attrs) (sanitizeL cs)) .nil
      else if decide (tag ∈ nonTextTags) then .nil
      else sanitizeL cs
def sanitizeL : NodeList → NodeList
  | .nil => .nil
  | .cons n ns => NodeList.append (sanitizeN n) (sanitizeL ns)
end

/-! ### encodeURI (used for the Open original link of the wrapper) -/

/-- The characters encodeURI leaves unescaped: uriAlpha, decimal digits,
uriMark, uriReserved and the hash sign. -/
def uriUnescaped (c : Char) : Bool :=
  c.isAlpha || c.isDigit ||
    decide (c ∈ ['-', '_', '.', '!', '~', '*', '\'', '(', ')',
                 ';', '/', '?', ':', '@', '&', '=', '+', '$', ',', '#'])

def hexDigit (n : Nat) : Char :=
  if n < 10 then Char.ofNat (48 + n) else Char.ofNat (55 + n)

/-- UTF-8 bytes of a code point. -/
def utf8Bytes (n : Nat) : List Nat :=
  if n < 128 then [n]
  else if n < 2048 then [192 + n / 64, 128 + n % 64]
  else if n < 65536 then [224 + n / 4096, 128 + (n / 64) % 64, 128 + n % 64]
  else [240 + n / 262144, 128 + (n / 4096) % 64, 128 + (n / 64) % 64, 128 + n % 64]

def percentBytes : List Nat → List Char
  | [] => []
  | b :: bs => '%' :: hexDigit (b / 16) :: hexDigit (b % 16) :: percentBytes bs

def encodeURIChar (c : Char) : List Char :=
  if uriUnescaped c then [c] else percentBytes (utf8Bytes c.toNat)

def encChars : List Char → List Char
  | [] => []
  | c :: cs => encodeURIChar c ++ encChars cs

def encodeURI (s : String) : String := ⟨encChars s.data⟩

/-! ### The wrapper page (server.js lines 107 to 138) -/

def wrapperCss : String :=
  "body\x7bfont-family:Inter,Arial,sans-serif;line-height:1.6;padding:22px;max-width:900px;margin:auto;background:#fbfbfd;color:#111\x7d header\x7bdisplay:flex;justify-content:space-between;align-items:center;margin-bottom:18px\x7d a.btn\x7bbackground:#1f6feb;color:#fff;padding:8px 12px;border-radius:8px;text-decoration:none\x7d img\x7bmax-width:100%;height:auto\x7d"

/-- The fixed wrapper around the sanitized content: the target URL is shown
(passed through the sanitizer once more) in the title and the header, the
Open original link points at the encodeURI of the target, and main holds the
sanitized fragment.  Whitespace-only formatting text nodes of the template
are elided. -/
def wrapperPage (target : String) (clean : NodeList) : Node :=
  .elem "html" false [] (NodeList.ofList [
    .elem "head" false [] (NodeList.ofList [
      .elem "meta" false [("charset", "utf-8")] .nil,
      .elem "meta" false [("name", "viewport"), ("content", "width=device-width,initial-scale=1")] .nil,
      .elem "title" false [] (NodeList.cons (.text "Ad-free view — ")
        (sanitizeL (NodeList.cons (.text target) .nil))),
      .elem "style" false [] (NodeList.cons (.text wrapperCss) .nil)]),
    .elem "body" false [] (NodeList.ofList [
      .elem "header" false [] (NodeList.ofList [
        .elem "div" false [] (NodeList.ofList [
          .elem "div" false [("style", "font-size:13px;color:#666")]
            (NodeList.cons (.text "Ad-free view") .nil),
          .elem "div" false [("style", "font-weight:700")]
            (sanitizeL (NodeList.cons (.text target) .nil))]),
        .elem "div" false [] (NodeList.ofList [
          .elem "a" false
            [("class", "btn"), ("href", encodeURI target), ("target", "_blank"),
             ("rel", "noopener noreferrer")]
            (NodeList.cons (.text "Open original") .nil)])]),
      .elem "main" false [] clean,
      .elem "footer" false [("style", "margin-top:40px;color:#666;font-size:13px")]
        (NodeList.ofList [
          .elem "div" false [] (NodeList.cons (.text "Served by AdFree Proxy") .nil),
          .elem "div" false [("style", "margin-top:8px")]
            (NodeList.cons
              (.text "Note: dynamic sites or paywalled content may not render correctly.") .nil)])])])

/-! ### Content selection (server.js lines 66 to 92) -/

/-- The two mutually exclusive sources of the content fragment. -/
inductive Chosen where
  | extracted (title : Option String) (content : NodeList)
  | fallbackOf (body : NodeList)
deriving DecidableEq

/-- contentHtml = doc.body ? doc.body.innerHTML : html — on the fallback
path the document (already cleaned by both sweeps) is absolutized in place,
then its body content is used; when no body element survives, the raw
fetched HTML (the document as parsed, before any removal) is used. -/
def fallbackBody (target : String) (doc : NodeList) : NodeList :=
  match findBodyL (absL target (cleanForest doc)) with
  | some cs => cs
  | none => doc

/-- The extraction result is used exactly when Readability returns an
article whose content is non-empty (an empty content string is falsy);
extraction throwing is modelled by the reader returning none. -/
def selectContent (target : String)
    (reader : NodeList → Option (Option String × NodeList)) (doc : NodeList) : Chosen :=
  match reader (cleanForest doc) with
  | some (title, c) =>
      match c with
      | .nil => .fallbackOf (fallbackBody target doc)
      | .cons x xs => .extracted title (.cons x xs)
  | none => .fallbackOf (fallbackBody target doc)

/-- contentHtml: h1 of the title (empty when null) plus a newline plus the
extracted content, or the fallback body. -/
def chosenHtml : Chosen → NodeList
  | .extracted title c =>
      .cons (.elem "h1" false [] (.cons (.text (title.getD "")) .nil))
        (.cons (.text "\n") c)
  | .fallbackOf b => b

/-- The complete response page for a successfully fetched document. -/
def renderPage (target : String)
    (reader : NodeList → Option (Option String × NodeList)) (doc : NodeList) : Node :=
  wrapperPage target (sanitizeL (chosenHtml (selectContent target reader doc)))

/-! ### The request handler (server.js lines 25 to 148) -/

/-- Outcome of the outbound fetch: an upstream response with its HTTP status
and parsed document, or a network/timeout exception (node-fetch rejects,
which throws at the await). -/
inductive FetchOutcome where
  | response (status : Nat) (doc : NodeList)
  | netError
deriving DecidableEq

/-- The four responses the handler can produce. -/
inductive Response where
  | invalidUrl
  | fetchFailed
  | serverError
  | page (html : Node)
deriving DecidableEq

def respStatus : Response → Nat
  | .invalidUrl => 400
  | .fetchFailed => 502
  | .serverError => 500
  | .page _ => 200

/-- The JSON bodies of the error responses (the page body is the serialized
wrapper, kept at the tree level here). -/
def errorBody : Response → Option String
  | .invalidUrl => some "\x7b\"error\":\"Invalid URL\"\x7d"
  | .fetchFailed => some "\x7b\"error\":\"Failed to fetch target\"\x7d"
  | .serverError => some "\x7b\"error\":\"Server error\"\x7d"
  | .page _ => none

/-- if (!target || !/^https?:\x2f\x2f/i.test(target)) — a missing target and
the empty string (falsy) are rejected, as is anything the pattern refuses. -/
def checkTarget : Option String → Bool
  | none => false
  | some t => !decide (t = "") && validTarget t

/-- The request handler.  The returned Bool records whether the outbound
fetch was performed.  A network or timeout exception thrown by the fetch is
caught by the top-level catch, which responds 500. -/
def handleFetch (target : Option String) (outcome : FetchOutcome)
    (reader : NodeList → Option (Option String × NodeList)) : Response × Bool :=
  match target with
  | none => (.invalidUrl, false)
  | some t =>
      if ¬ (!decide (t = "") && validTarget t) = true then (.invalidUrl, false)
      else
        match outcome with
        | .netError => (.serverError, true)
        | .response status doc =>
            if status < 200 ∨ 300 ≤ status then (.fetchFailed, true)
            else (.page (renderPage t reader doc), true)

/-! ### Predicates used by the claims -/

/-- The element carries an attribute of the claimed kind (id or class)
containing an ad pattern, whether or not the sweep can see it. -/
def adAttrP (_tag : String) (_svg : Bool) (attrs : List (String × String)) : Bool :=
  adMatch (idOf attrs) ((getAttr attrs "class").getD "")

def bannedTag (tag : String) : Bool :=
  decide (tag ∈ ["script", "iframe", "ins", "amp-ad", "amp-analytics"])

/- All href and src attribute values of the elements of a tree. -/
mutual
def linkValsN : Node → List String
  | .text _ => []
  | .elem _ _ attrs cs =>
      (attrs.filterMap fun p => if p.1 = "href" ∨ p.1 = "src" then some p.2 else none) ++
        linkValsL cs
def linkValsL : NodeList → List String
  | .nil => []
  | .cons n ns => linkValsN n ++ linkValsL ns
end

/-- The href/src values the extractor reported, if it was used. -/
def readerLinkVals (reader : NodeList → Option (Option String × NodeList))
    (doc : NodeList) : List String :=
  match reader (cleanForest doc) with
  | some (_, c) => linkValsL c
  | none => []

/-- A link-carrying attribute that is neither scheme-qualified nor one of
the given original values. -/
def linkBadP (vals : List String) (_tag : String) (_svg : Bool)
    (attrs : List (String × String)) : Bool :=
  attrs.any fun p =>
    (decide (p.1 = "href") || decide (p.1 = "src")) &&
      !(hasScheme p.2 || decide (p.2 ∈ vals))

/-- The anchor/image obligations of the fallback rewrite: anchors carry the
forced rel and target and an href that is empty, scheme-qualified or
unresolvable; images carry a src that is empty, scheme-qualified or
unresolvable. -/
def linkAttrOk (target : String) (attrs : List (String × String)) (name : String) : Bool :=
  match getAttr attrs name with
  | none => true
  | some v => decide (v = "") || hasScheme v || decide (urlResolve v target = none)

def ancImgBadP (target : String) (tag : String) (_svg : Bool)
    (attrs : List (String × String)) : Bool :=
  (decide (tag = "a") &&
    !(decide (getAttr attrs "rel" = some "noopener noreferrer") &&
      decide (getAttr attrs "target" = some "_blank") && linkAttrOk target attrs "href")) ||
  (decide (tag = "img") && !linkAttrOk target attrs "src")

/-! ### Concrete documents for counterexamples and witnesses -/

/-- A reader that extracts nothing (Readability returned null or threw). -/
def reader0 : NodeList → Option (Option String × NodeList) := fun _ => none

/-- A reader that extracts a one-paragraph article titled T. -/
def reader1 : NodeList → Option (Option String × NodeList) :=
  fun _ => some (some "T", .cons (.elem "p" false [] (.cons (.text "hello") .nil)) .nil)

/-- html > body.ads > p.ad-banner — the body element itself matches the ad
patterns. -/
def exDocBodyAd : NodeList :=
  NodeList.ofList [.elem "html" false [] (NodeList.ofList [
    .elem "body" false [("class", "ads")] (NodeList.ofList [
      .elem "p" false [("class", "ad-banner")] (NodeList.cons (.text "X") .nil)])])]

/-- html > body > a[href=""] — an anchor with an empty (falsy) href. -/
def exDocEmptyHref : NodeList :=
  NodeList.ofList [.elem "html" false [] (NodeList.ofList [
    .elem "body" false [] (NodeList.ofList [
      .elem "a" false [("href", "")] (NodeList.cons (.text "x") .nil)])])]

/-- html > body > p#q — a plain document with a surviving body. -/
def exDocPlain : NodeList :=
  NodeList.ofList [.elem "html" false [] (NodeList.ofList [
    .elem "body" false [] (NodeList.ofList [
      .elem "p" false [("id", "q")] (NodeList.cons (.text "hello") .nil)])])]

/-! ### Helper lemmas: attribute lists -/

theorem getAttr_mem {l : List (String × String)} {x v : String}
    (h : getAttr l x = some v) : (x, v) ∈ l := by
  induction l with
  | nil => simp [getAttr] at h
  | cons p rest ih =>
      obtain ⟨a, b⟩ := p
      by_cases hax : a = x
      · subst hax
        simp [getAttr] at h
        subst h
        exact List.mem_cons_self _ _
      · simp [getAttr, hax] at h
        exact List.mem_cons_of_mem _ (ih h)

theorem getAttr_setAttr_self (l : List (String × String)) (n v : String) :
    getAttr (setAttr l n v) n = some v := by
  induction l with
  | nil => simp [setAttr, getAttr]
  | cons p rest ih =>
      obtain ⟨a, b⟩ := p
      by_cases han : a = n
      · subst han; simp [setAttr, getAttr]
      · simp [setAttr, getAttr, han, ih]

theorem getAttr_setAttr_ne (l : List (String × String)) (n v m : String) (hne : m ≠ n) :
    getAttr (setAttr l n v) m = getAttr l m := by
  induction l with
  | nil => simp [setAttr, getAttr, Ne.symm hne]
  | cons p rest ih =>
      obtain ⟨a, b⟩ := p
      by_cases han : a = n
      · subst han
        simp [setAttr, getAttr, Ne.symm hne]
      · simp [setAttr, getAttr, han, ih]

theorem any_setAttr (l : List (String × String)) (n v : String)
    (q : String × String → Bool) (h : (setAttr l n v).any q = true) :
    q (n, v) = true ∨ l.any q = true := by
  induction l with
  | nil =>
      simp only [setAttr, List.any_cons, List.any_nil, Bool.or_false] at h
      exact Or.inl h
  | cons p rest ih =>
      obtain ⟨a, b⟩ := p
      by_cases han : a = n
      · subst han
        rw [show setAttr ((a, b) :: rest) a v = (a, v) :: rest by simp [setAttr]] at h
        rw [List.any_cons] at h
        cases hq : q (a, v) with
        | true => exact Or.inl rfl
        | false =>
            rw [hq, Bool.false_or] at h
            exact Or.inr (by simp [List.any_cons, h])
      · rw [show setAttr ((a, b) :: rest) n v = (a, b) :: setAttr rest n v by
          simp [setAttr, han]] at h
        rw [List.any_cons] at h
        cases hq : q (a, b) with
        | true => exact Or.inr (by simp [List.any_cons, hq])
        | false =>
            rw [hq, Bool.false_or] at h
            rcases ih h with h' | h'
            · exact Or.inl h'
            · exact Or.inr (by simp [List.any_cons, h'])

theorem getAttr_filter (l : List (String × String)) (x : String)
    (p : String × String → Bool) (hp : ∀ v, p (x, v) = true) :
    getAttr (l.filter p) x = getAttr l x := by
  induction l with
  | nil => simp [getAttr]
  | cons q rest ih =>
      obtain ⟨a, b⟩ := q
      by_cases hax : a = x
      · subst hax
        simp [List.filter, hp b, getAttr]
      · cases hpb : p (a, b)
        · simp [List.filter, hpb, getAttr, hax, ih]
        · simp [List.filter, hpb, getAttr, hax, ih]

theorem any_of_filter_any (l : List (String × String)) (p q : String × String → Bool)
    (h : (l.filter p).any q = true) : l.any q = true := by
  rw [List.any_eq_true] at h ⊢
  obtain ⟨x, hx, hq⟩ := h
  exact ⟨x, (List.mem_filter.mp hx).1, hq⟩

/-! ### Helper lemmas: strip -/

mutual
theorem strip_not_sat_node (rm : String → Bool → List (String × String) → Bool) :
    ∀ n m, stripNode rm n = some m → elemSatN rm m = false
  | .text s, m, h => by
      simp [stripNode] at h
      subst h
      rfl
  | .elem tag svg attrs cs, m, h => by
      cases hr : rm tag svg attrs with
      | true => simp [stripNode, hr] at h
      | false =>
          simp [stripNode, hr] at h
          subst h
          simp [elemSatN, hr]
          exact strip_not_sat_list rm cs
theorem strip_not_sat_list (rm : String → Bool → List (String × String) → Bool) :
    ∀ f, elemSatL rm (stripL rm f) = false
  | .nil => rfl
  | .cons n ns => by
      cases hs : stripNode rm n with
      | some m =>
          simp [stripL, hs, elemSatL]
          exact ⟨strip_not_sat_node rm n m hs, strip_not_sat_list rm ns⟩
      | none =>
          simp [stripL, hs]
          exact strip_not_sat_list rm ns
end

mutual
theorem strip_sat_transfer_node (rm P : String → Bool → List (String × String) → Bool) :
    ∀ n m, stripNode rm n = some m → elemSatN P m = true → elemSatN P n = true
  | .text s, m, h, hs => by
      simp [stripNode] at h
      subst h
      exact hs
  | .elem tag svg attrs cs, m, h, hs => by
      cases hr : rm tag svg attrs with
      | true => simp [stripNode, hr] at h
      | false =>
          simp [stripNode, hr] at h
          subst h
          simp [elemSatN] at hs ⊢
          rcases hs with hs | hs
          · exact Or.inl hs
          · exact Or.inr (strip_sat_transfer_list rm P cs hs)
theorem strip_sat_transfer_list (rm P : String → Bool → List (String × String) → Bool) :
    ∀ f, elemSatL P (stripL rm f) = true → elemSatL P f = true
  | .nil, h => by simp [stripL, elemSatL] at h
  | .cons n ns, h => by
      cases hs : stripNode rm n with
      | some m =>
          rw [stripL, hs] at h
          simp [elemSatL] at h ⊢
          rcases h with h | h
          · exact Or.inl (strip_sat_transfer_node rm P n m hs h)
          · exact Or.inr (strip_sat_transfer_list rm P ns h)
      | none =>
          rw [stripL, hs] at h
          simp [elemSatL]
          exact Or.inr (strip_sat_transfer_list rm P ns h)
end

theorem elemSatL_append (P : String → Bool → List (String × String) → Bool) :
    ∀ xs ys : NodeList,
      elemSatL P (NodeList.append xs ys) = (elemSatL P xs || elemSatL P ys)
  | .nil, ys => by simp [NodeList.append, elemSatL]
  | .cons n ns, ys => by
      simp [NodeList.append, elemSatL, elemSatL_append P ns ys, Bool.or_assoc]

/-! ### Helper lemmas: sanitize -/

mutual
theorem sanitize_transfer_node (P Q : String → Bool → List (String × String) → Bool)
    (hPQ : ∀ t svg attrs, decide (t ∈ allowedTags) = true →
      Q t svg (attrFilter t attrs) = true → P t svg attrs = true) :
    ∀ n, elemSatL Q (sanitizeN n) = true → elemSatN P n = true
  | .text s, h => by simp [sanitizeN, elemSatL, elemSatN] at h
  | .elem tag svg attrs cs, h => by
      cases ht : decide (tag ∈ allowedTags) with
      | true =>
          simp only [sanitizeN, ht, if_true] at h
          simp [elemSatL, elemSatN] at h
          rcases h with h | h
          · simp [elemSatN, hPQ tag svg attrs ht h]
          · simp [elemSatN]
            exact Or.inr (sanitize_transfer_list P Q hPQ cs h)
      | false =>
          cases hnt : decide (tag ∈ nonTextTags) with
          | true =>
              simp only [sanitizeN, ht, hnt, Bool.false_eq_true, if_false, if_true] at h
              simp [elemSatL] at h
          | false =>
              simp only [sanitizeN, ht, hnt, Bool.false_eq_true, if_false] at h
              simp [elemSatN, sanitize_transfer_list P Q hPQ cs h]
theorem sanitize_transfer_list (P Q : String → Bool → List (String × String) → Bool)
    (hPQ : ∀ t svg attrs, decide (t ∈ allowedTags) = true →
      Q t svg (attrFilter t attrs) = true → P t svg attrs = true) :
    ∀ f, elemSatL Q (sanitizeL f) = true → elemSatL P f = true
  | .nil, h => by simp [sanitizeL, elemSatL] at h
  | .cons n ns, h => by
      rw [sanitizeL, elemSatL_append] at h
      simp at h
      rcases h with h | h
      · simp [elemSatL]
        refine Or.inl ?_
        cases n with
        | text s => simp [sanitizeN, elemSatL, elemSatN] at h
        | elem tag svg attrs cs => exact sanitize_transfer_node P Q hPQ _ h
      · simp [elemSatL, sanitize_transfer_list P Q hPQ ns h]
end

mutual
theorem elemSat_false_node : ∀ n, elemSatN (fun _ _ _ => false) n = false
  | .text _ => rfl
  | .elem t svg attrs cs => by
      simp [elemSatN]
      exact elemSat_false_list cs
theorem elemSat_false_list : ∀ f, elemSatL (fun _ _ _ => false) f = false
  | .nil => rfl
  | .cons n ns => by
      simp [elemSatL]
      exact ⟨elemSat_false_node n, elemSat_false_list ns⟩
end

theorem sanitize_never (Q : String → Bool → List (String × String) → Bool)
    (h : ∀ t svg attrs, decide (t ∈ allowedTags) = true →
      Q t svg (attrFilter t attrs) = false)
    (f : NodeList) : elemSatL Q (sanitizeL f) = false := by
  cases hq : elemSatL Q (sanitizeL f) with
  | false => rfl
  | true =>
      have htr := sanitize_transfer_list (fun _ _ _ => false) Q
        (fun t svg attrs ht hQ => absurd hQ (by simp [h t svg attrs ht])) f hq
      rw [elemSat_false_list f] at htr
      exact absurd htr (by simp)

/-! ### Helper lemmas: occurrence -/

mutual
theorem elemSat_occurs_node (P : String → Bool → List (String × String) → Bool) :
    ∀ n, elemSatN P n = true → ∃ m, occursN m n = true ∧ rootSat P m = true
  | .text s, h => by simp [elemSatN] at h
  | .elem t svg attrs cs, h => by
      simp [elemSatN] at h
      rcases h with h | h
      · exact ⟨.elem t svg attrs cs, by simp [occursN], by simp [rootSat, h]⟩
      · obtain ⟨m, hm, hp⟩ := elemSat_occurs_list P cs h
        exact ⟨m, by simp [occursN, hm], hp⟩
theorem elemSat_occurs_list (P : String → Bool → List (String × String) → Bool) :
    ∀ f, elemSatL P f = true → ∃ m, occursL m f = true ∧ rootSat P m = true
  | .nil, h => by simp [elemSatL] at h
  | .cons n ns, h => by
      simp [elemSatL] at h
      rcases h with h | h
      · obtain ⟨m, hm, hp⟩ := elemSat_occurs_node P n h
        exact ⟨m, by simp [occursL, hm], hp⟩
      · obtain ⟨m, hm, hp⟩ := elemSat_occurs_list P ns h
        exact ⟨m, by simp [occursL, hm], hp⟩
end

mutual
theorem occurs_elemSat_node (P : String → Bool → List (String × String) → Bool) :
    ∀ n m, occursN m n = true → rootSat P m = true → elemSatN P n = true
  | .text s, m, ho, hr => by
      simp [occursN] at ho
      subst ho
      simp [rootSat] at hr
  | .elem t svg attrs cs, m, ho, hr => by
      simp [occursN] at ho
      rcases ho with ho | ho
      · subst ho
        simp [rootSat] at hr
        simp [elemSatN, hr]
      · simp [elemSatN, occurs_elemSat_list P cs m ho hr]
theorem occurs_elemSat_list (P : String → Bool → List (String × String) → Bool) :
    ∀ f m, occursL m f = true → rootSat P m = true → elemSatL P f = true
  | .nil, m, ho, _ => by simp [occursL] at ho
  | .cons n ns, m, ho, hr => by
      simp [occursL] at ho
      rcases ho with ho | ho
      · simp [elemSatL, occurs_elemSat_node P n m ho hr]
      · simp [elemSatL, occurs_elemSat_list P ns m ho hr]
end

/-! ### Helper lemmas: removal provenance -/

mutual
theorem strip_prov_node (rm : String → Bool → List (String × String) → Bool) :
    ∀ n m x, stripNode rm n = some m → occursN x m = true →
      ∃ y, occursN y n = true ∧ stripNode rm y = some x
  | .text s, m, x, h, ho => by
      simp [stripNode] at h
      subst h
      simp [occursN] at ho
      subst ho
      exact ⟨.text s, by simp [occursN], by simp [stripNode]⟩
  | .elem t svg attrs cs, m, x, h, ho => by
      cases hr : rm t svg attrs with
      | true => simp [stripNode, hr] at h
      | false =>
          simp [stripNode, hr] at h
          subst h
          simp [occursN] at ho
          rcases ho with ho | ho
          · subst ho
            exact ⟨.elem t svg attrs cs, by simp [occursN], by simp [stripNode, hr]⟩
          · obtain ⟨y, hy, hsy⟩ := strip_prov_list rm cs x ho
            exact ⟨y, by simp [occursN, hy], hsy⟩
theorem strip_prov_list (rm : String → Bool → List (String × String) → Bool) :
    ∀ f x, occursL x (stripL rm f) = true →
      ∃ y, occursL y f = true ∧ stripNode rm y = some x
  | .nil, x, h => by simp [stripL, occursL] at h
  | .cons n ns, x, h => by
      cases hs : stripNode rm n with
      | some m =>
          rw [stripL, hs] at h
          simp [occursL] at h
          rcases h with h | h
          · obtain ⟨y, hy, hsy⟩ := strip_prov_node rm n m x hs h
            exact ⟨y, by simp [occursL, hy], hsy⟩
          · obtain ⟨y, hy, hsy⟩ := strip_prov_list rm ns x h
            exact ⟨y, by simp [occursL, hy], hsy⟩
      | none =>
          rw [stripL, hs] at h
          obtain ⟨y, hy, hsy⟩ := strip_prov_list rm ns x h
          exact ⟨y, by simp [occursL, hy], hsy⟩
end

/-! ### Helper lemmas: body lookup -/

mutual
theorem findBody_sat_node (P : String → Bool → List (String × String) → Bool) :
    ∀ n cs, findBodyN n = some cs → elemSatL P cs = true → elemSatN P n = true
  | .text s, cs, h, _ => by simp [findBodyN] at h
  | .elem t svg attrs cs0, cs, h, hs => by
      by_cases ht : t = "body"
      · subst ht
        simp [findBodyN] at h
        subst h
        simp [elemSatN, hs]
      · simp [findBodyN, ht] at h
        simp [elemSatN, findBody_sat_list P cs0 cs h hs]
theorem findBody_sat_list (P : String → Bool → List (String × String) → Bool) :
    ∀ f cs, findBodyL f = some cs → elemSatL P cs = true → elemSatL P f = true
  | .nil, cs, h, _ => by simp [findBodyL] at h
  | .cons n ns, cs, h, hs => by
      cases hb : findBodyN n with
      | some r =>
          rw [findBodyL, hb] at h
          have hrc : r = cs := by simpa using h
          rw [← hrc] at hs
          simp [elemSatL]
          exact Or.inl (findBody_sat_node P n r hb hs)
      | none =>
          rw [findBodyL, hb] at h
          simp [elemSatL, findBody_sat_list P ns cs h hs]
end

/-! ### Helper lemmas: absolutization transfer -/

mutual
theorem abs_transfer_node (target : String)
    (P Q : String → Bool → List (String × String) → Bool)
    (h : ∀ tag svg attrs, Q tag svg (absAttrs target tag attrs) = true → P tag svg attrs = true) :
    ∀ n, elemSatN Q (absN target n) = true → elemSatN P n = true
  | .text s, hs => by simp [absN, elemSatN] at hs
  | .elem t svg attrs cs, hs => by
      simp [absN, elemSatN] at hs ⊢
      rcases hs with hs | hs
      · exact Or.inl (h t svg attrs hs)
      · exact Or.inr (abs_transfer_list target P Q h cs hs)
theorem abs_transfer_list (target : String)
    (P Q : String → Bool → List (String × String) → Bool)
    (h : ∀ tag svg attrs, Q tag svg (absAttrs target tag attrs) = true → P tag svg attrs = true) :
    ∀ f, elemSatL Q (absL target f) = true → elemSatL P f = true
  | .nil, hs => by simp [absL, elemSatL] at hs
  | .cons n ns, hs => by
      simp [absL, elemSatL] at hs ⊢
      rcases hs with hs | hs
      · exact Or.inl (abs_transfer_node target P Q h n hs)
      · exact Or.inr (abs_transfer_list target P Q h ns hs)
end

/-! ### Helper lemmas: the sweeps do not look at id or class rewrites -/

theorem keepAttr_id (tag v : String) : keepAttr tag "id" v = true := by
  unfold keepAttr allowedAttrNames
  split_ifs <;> simp

theorem keepAttr_class (tag v : String) : keepAttr tag "class" v = true := by
  unfold keepAttr allowedAttrNames
  split_ifs <;> simp

theorem rmAdP_filter (tag : String) (svg : Bool) (attrs : List (String × String)) :
    rmAdP tag svg (attrFilter tag attrs) = rmAdP tag svg attrs := by
  have hid := getAttr_filter attrs "id" (fun p => keepAttr tag p.1 p.2) (keepAttr_id tag)
  have hcls := getAttr_filter attrs "class" (fun p => keepAttr tag p.1 p.2) (keepAttr_class tag)
  simp [rmAdP, idOf, clsOf, attrFilter, hid, hcls]

theorem getAttr_absAttrs_ne (target tag : String) (attrs : List (String × String))
    (m : String) (h1 : m ≠ "href") (h2 : m ≠ "src") (h3 : m ≠ "rel") (h4 : m ≠ "target") :
    getAttr (absAttrs target tag attrs) m = getAttr attrs m := by
  by_cases ha : tag = "a"
  · simp only [absAttrs, ha, if_true]
    unfold absAnchorAttrs
    rw [getAttr_setAttr_ne _ _ _ _ h4, getAttr_setAttr_ne _ _ _ _ h3]
    cases hh : getAttr attrs "href" with
    | none => rfl
    | some hv =>
        by_cases he : hv = ""
        · simp [he]
        · simp [he, getAttr_setAttr_ne _ _ _ _ h1]
  · by_cases hi : tag = "img"
    · simp only [absAttrs, ha, hi, if_true, if_false]
      unfold absImgAttrs
      cases hs : getAttr attrs "src" with
      | none => rfl
      | some sv =>
          by_cases he : sv = ""
          · simp [he]
          · simp [he, getAttr_setAttr_ne _ _ _ _ h2]
    · simp [absAttrs, ha, hi]

theorem rmAdP_absAttrs (target tag : String) (svg : Bool) (attrs : List (String × String)) :
    rmAdP tag svg (absAttrs target tag attrs) = rmAdP tag svg attrs := by
  have hid := getAttr_absAttrs_ne target tag attrs "id"
    (by decide) (by decide) (by decide) (by decide)
  have hcls := getAttr_absAttrs_ne target tag attrs "class"
    (by decide) (by decide) (by decide) (by decide)
  simp [rmAdP, idOf, clsOf, hid, hcls]

/-! ### Helper lemmas: URL resolution -/

theorem parseHttpBase_scheme (b : String) (s r : List Char)
    (h : parseHttpBase b = some (s, r)) :
    s = ['h', 't', 't', 'p'] ∨ s = ['h', 't', 't', 'p', 's'] := by
  unfold parseHttpBase at h
  rcases hd : b.data with _ | ⟨c1, _ | ⟨c2, _ | ⟨c3, _ | ⟨c4, rest4⟩⟩⟩⟩ <;>
    rw [hd] at h <;> dsimp only at h <;> try cases h
  split_ifs at h
  unfold httpRest at h
  split at h
  · simp only [Option.some.injEq, Prod.mk.injEq] at h
    exact Or.inl h.1.symm
  · split_ifs at h
    simp only [Option.some.injEq, Prod.mk.injEq] at h
    exact Or.inr h.1.symm
  · cases h

theorem hasScheme_mk_http (x : List Char) :
    hasScheme (mkOut ['h', 't', 't', 'p'] x) = true := rfl

theorem hasScheme_mk_https (x : List Char) :
    hasScheme (mkOut ['h', 't', 't', 'p', 's'] x) = true := rfl

theorem urlResolve_hasScheme (resource base u : String)
    (h : urlResolve resource base = some u) : hasScheme u = true := by
  cases hr : hasScheme resource with
  | true =>
      rw [urlResolve, if_pos hr] at h
      simp at h
      subst h
      exact hr
  | false =>
      rw [urlResolve, if_neg (by simp [hr])] at h
      cases hpb : parseHttpBase base with
      | none =>
          rw [hpb] at h
          dsimp only at h
          cases h
      | some p =>
          obtain ⟨scheme, rest⟩ := p
          rw [hpb] at h
          dsimp only at h
          have hs : ∀ x, hasScheme (mkOut scheme x) = true := by
            rcases parseHttpBase_scheme base scheme rest hpb with rfl | rfl
            · exact hasScheme_mk_http
            · exact hasScheme_mk_https
          by_cases h1 : listPrefixCh ['/', '/'] resource.data = true
          · rw [if_pos h1] at h
            obtain rfl := Option.some.inj h
            exact hs _
          · rw [if_neg h1] at h
            by_cases h2 : (rest.takeWhile (fun c => !decide (c = '/'))).isEmpty = true
            · rw [if_pos h2] at h
              cases h
            · rw [if_neg h2] at h
              by_cases h3 : listPrefixCh ['/'] resource.data = true
              · rw [if_pos h3] at h
                obtain rfl := Option.some.inj h
                exact hs _
              · rw [if_neg h3] at h
                obtain rfl := Option.some.inj h
                exact hs _

theorem toAbsolute_cases (h t : String) :
    hasScheme (toAbsolute h t) = true ∨
      (toAbsolute h t = h ∧ urlResolve h t = none) := by
  cases hu : urlResolve h t with
  | none => exact Or.inr ⟨by simp [toAbsolute, hu], rfl⟩
  | some u =>
      refine Or.inl ?_
      rw [show toAbsolute h t = u by simp [toAbsolute, hu]]
      exact urlResolve_hasScheme h t u hu

theorem encodeURI_hasScheme (t : String) (hv : validTarget t = true) :
    hasScheme (encodeURI t) = true := by
  unfold validTarget at hv
  cases hpb : parseHttpBase t with
  | none => rw [hpb] at hv; cases hv
  | some p =>
      obtain ⟨scheme, rest⟩ := p
      unfold parseHttpBase at hpb
      rcases hd : t.data with _ | ⟨c1, _ | ⟨c2, _ | ⟨c3, _ | ⟨c4, rest4⟩⟩⟩⟩ <;>
        rw [hd] at hpb <;> dsimp only at hpb <;> try cases hpb
      split_ifs at hpb with hc
      · simp only [Bool.and_eq_true, Bool.or_eq_true, decide_eq_true_eq] at hc
        obtain ⟨⟨⟨h1, h2⟩, h3⟩, h4⟩ := hc
        unfold encodeURI
        rw [hd]
        unfold httpRest at hpb
        split at hpb
        · rcases h1 with rfl | rfl <;> rcases h2 with rfl | rfl <;>
            rcases h3 with rfl | rfl <;> rcases h4 with rfl | rfl <;> rfl
        · split_ifs at hpb with hc5
          rcases hc5 with rfl | rfl <;>
            rcases h1 with rfl | rfl <;> rcases h2 with rfl | rfl <;>
            rcases h3 with rfl | rfl <;> rcases h4 with rfl | rfl <;> rfl
        · cases hpb


/-! ### Helper lemma: the wrapper page -/

theorem wrapper_elemSat (P : String → Bool → List (String × String) → Bool)
    (t : String) (clean : NodeList)
    (hhtml : P "html" false [] = false)
    (hhead : P "head" false [] = false)
    (hmeta1 : P "meta" false [("charset", "utf-8")] = false)
    (hmeta2 : P "meta" false
      [("name", "viewport"), ("content", "width=device-width,initial-scale=1")] = false)
    (htitle : P "title" false [] = false)
    (hstyle : P "style" false [] = false)
    (hbody : P "body" false [] = false)
    (hheader : P "header" false [] = false)
    (hdiv : P "div" false [] = false)
    (hdiv1 : P "div" false [("style", "font-size:13px;color:#666")] = false)
    (hdiv2 : P "div" false [("style", "font-weight:700")] = false)
    (ha : P "a" false [("class", "btn"), ("href", encodeURI t), ("target", "_blank"),
      ("rel", "noopener noreferrer")] = false)
    (hmain : P "main" false [] = false)
    (hfoot : P "footer" false [("style", "margin-top:40px;color:#666;font-size:13px")] = false)
    (hdiv3 : P "div" false [("style", "margin-top:8px")] = false)
    (hclean : elemSatL P clean = false) :
    elemSatN P (wrapperPage t clean) = false := by
  unfold wrapperPage
  simp [elemSatN, elemSatL, NodeList.ofList, sanitizeL, sanitizeN, NodeList.append,
        hhtml, hhead, hmeta1, hmeta2, htitle, hstyle, hbody, hheader, hdiv, hdiv1, hdiv2,
        ha, hmain, hfoot, hdiv3, hclean]

/-! ### Claim theorems -/

/-- C2: for every fetched document, no script, iframe, ins, amp-ad or
amp-analytics element appears in the final response page: the structural
sweep removes them from the document, and the sanitizer's allow list (which
contains none of these tags) removes any that reach it by another route, so
the rendered page never contains one, whatever the extractor returned. -/
theorem c2_banned_tags_absent (t : String)
    (reader : NodeList → Option (Option String × NodeList)) (doc : NodeList) :
    elemSatN (fun tag _ _ => bannedTag tag) (renderPage t reader doc) = false := by
  have hall : ∀ x ∈ allowedTags, bannedTag x = false := by decide
  unfold renderPage
  refine wrapper_elemSat _ t _ rfl rfl rfl rfl rfl rfl rfl rfl rfl rfl rfl rfl rfl rfl rfl ?_
  exact sanitize_never _ (fun tag svg attrs ht => hall tag (of_decide_eq_true ht)) _

/-- Names the sanitizer allows are never event-handler names. -/
theorem allowedAttrNames_not_on (t n : String) (hn : n ∈ allowedAttrNames t) :
    listPrefixCh ['o', 'n'] n.data = false := by
  unfold allowedAttrNames at hn
  rw [List.mem_append] at hn
  rcases hn with hn | hn
  · by_cases ha : t = "a"
    · rw [if_pos ha] at hn
      fin_cases hn <;> decide
    · rw [if_neg ha] at hn
      by_cases hi : t = "img"
      · rw [if_pos hi] at hn
        fin_cases hn <;> decide
      · rw [if_neg hi] at hn
        cases hn
  · fin_cases hn <;> decide

/-- C3: no attribute outside the per-tag allow list survives sanitization
(in particular no event-handler attribute, whose name begins with the two
letters o n), and the documented scenario holds: an img with onerror and src
keeps only its src. -/
theorem c3_sanitizer_attrs :
    (∀ f, elemSatL (fun tag _ attrs => attrs.any fun p => !keepAttr tag p.1 p.2)
        (sanitizeL f) = false) ∧
    (∀ f, elemSatL (fun _ _ attrs => attrs.any fun p => listPrefixCh ['o', 'n'] p.1.data)
        (sanitizeL f) = false) ∧
    sanitizeL (.cons (.elem "img" false [("onerror", "x()"), ("src", "http://x/y.png")] .nil) .nil) =
      .cons (.elem "img" false [("src", "http://x/y.png")] .nil) .nil := by
  refine ⟨?_, ?_, by decide⟩
  · intro f
    apply sanitize_never
    intro t svg attrs ht
    cases hq : (attrFilter t attrs).any fun p => !keepAttr t p.1 p.2 with
    | false => rfl
    | true =>
        rw [List.any_eq_true] at hq
        obtain ⟨p, hp, hb⟩ := hq
        have hk := (List.mem_filter.mp hp).2
        rw [hk] at hb
        simp at hb
  · intro f
    apply sanitize_never
    intro t svg attrs ht
    cases hq : (attrFilter t attrs).any fun p => listPrefixCh ['o', 'n'] p.1.data with
    | false => rfl
    | true =>
        rw [List.any_eq_true] at hq
        obtain ⟨p, hp, hb⟩ := hq
        have hk := (List.mem_filter.mp hp).2
        have hmem : p.1 ∈ allowedAttrNames t := by
          unfold keepAttr at hk
          rw [Bool.and_eq_true] at hk
          exact of_decide_eq_true hk.1
        rw [allowedAttrNames_not_on t p.1 hmem] at hb
        cases hb

/-- C10: in the heuristic sweep, an element whose className property is not
a plain string (svg flag set) is removed exactly when its id matches one of
the ad patterns; its class attribute is not consulted, so an svg element
with class ad-banner survives while an HTML element with the same class is
removed. -/
theorem c10_svg_class_ignored (tag : String) (attrs : List (String × String)) (cs : NodeList) :
    (stripNode rmAdP (.elem tag true attrs cs) = none ↔
      adMatch (idOf attrs) "" = true) ∧
    stripNode rmAdP (.elem "svg" true [("class", "ad-banner")] .nil) =
      some (.elem "svg" true [("class", "ad-banner")] .nil) ∧
    stripNode rmAdP (.elem "div" false [("class", "ad-banner")] .nil) = none := by
  refine ⟨?_, by decide, by decide⟩
  cases hm : adMatch (idOf attrs) "" with
  | true =>
      rw [show stripNode rmAdP (.elem tag true attrs cs) = none from by
        simp [stripNode, rmAdP, clsOf, hm]]
      simp [hm]
  | false =>
      rw [show stripNode rmAdP (.elem tag true attrs cs) =
          some (.elem tag true attrs (stripL rmAdP cs)) from by
        simp [stripNode, rmAdP, clsOf, hm]]
      simp [hm]

/-- C8: a missing target, an empty target or one that does not match the
case-insensitive pattern https?:// is answered 400 with the Invalid URL
body, and the outbound fetch is never performed (the flag is false and the
response does not depend on the fetch outcome). -/
theorem c8_invalid_target (target : Option String) (outcome : FetchOutcome)
    (reader : NodeList → Option (Option String × NodeList))
    (h : checkTarget target = false) :
    handleFetch target outcome reader = (.invalidUrl, false) ∧
      respStatus .invalidUrl = 400 ∧
      errorBody .invalidUrl = some "\x7b\"error\":\"Invalid URL\"\x7d" := by
  refine ⟨?_, rfl, rfl⟩
  cases target with
  | none => rfl
  | some t =>
      simp only [checkTarget] at h
      simp [handleFetch, h]

/-- C8 witness: the scenario target not-a-url is rejected with 400 and no
network call. -/
theorem c8_invalid_target_witness :
    checkTarget (some "not-a-url") = false ∧
      (handleFetch (some "not-a-url") (.response 200 .nil) reader0 = (.invalidUrl, false) ∧
        respStatus .invalidUrl = 400 ∧
        errorBody .invalidUrl = some "\x7b\"error\":\"Invalid URL\"\x7d") :=
  ⟨by decide, c8_invalid_target (some "not-a-url") (.response 200 .nil) reader0 (by decide)⟩

/-- C9: an upstream response with status outside 200 to 299 (the negation of
the ok flag of the fetch client) is answered 502 with the Failed to fetch
target body. -/
theorem c9_upstream_error (t : String) (status : Nat) (doc : NodeList)
    (reader : NodeList → Option (Option String × NodeList))
    (hv : checkTarget (some t) = true) (hs : status < 200 ∨ 300 ≤ status) :
    handleFetch (some t) (.response status doc) reader = (.fetchFailed, true) ∧
      respStatus .fetchFailed = 502 ∧
      errorBody .fetchFailed = some "\x7b\"error\":\"Failed to fetch target\"\x7d" := by
  refine ⟨?_, rfl, rfl⟩
  simp only [checkTarget] at hv
  simp [handleFetch, hv, hs]

/-- C9 witness: the scenario target returning 404 is answered 502. -/
theorem c9_upstream_error_witness :
    checkTarget (some "http://example.com/article") = true ∧ (404 < 200 ∨ 300 ≤ 404) ∧
      (handleFetch (some "http://example.com/article") (.response 404 .nil) reader0 =
          (.fetchFailed, true) ∧
        respStatus .fetchFailed = 502 ∧
        errorBody .fetchFailed = some "\x7b\"error\":\"Failed to fetch target\"\x7d") :=
  ⟨by decide, by decide,
    c9_upstream_error "http://example.com/article" 404 .nil reader0 (by decide) (by decide)⟩

/-- C5 counterexample: a network or timeout exception during the fetch is
caught by the top-level handler and produces the serverError response with
status 500, which is a different error kind and status from the 502
fetchFailed response the claim requires for it. -/
theorem c5_counterexample :
    (handleFetch (some "http://example.com/") .netError reader0).1 = Response.serverError ∧
      respStatus Response.serverError = 500 ∧
      Response.serverError ≠ Response.fetchFailed ∧
      respStatus Response.serverError ≠ 502 := by decide

/-- C5 amended: a network or timeout error during the upstream fetch is
caught by the top-level catch and produces 500 with the Server error body, a
distinct error kind from the 502 Failed to fetch target produced by a
non-success upstream HTTP status. -/
theorem c5_network_error_is_500 (t : String)
    (reader : NodeList → Option (Option String × NodeList))
    (hv : checkTarget (some t) = true) :
    handleFetch (some t) .netError reader = (.serverError, true) ∧
      respStatus .serverError = 500 ∧
      errorBody .serverError = some "\x7b\"error\":\"Server error\"\x7d" ∧
      Response.serverError ≠ Response.fetchFailed ∧
      (∀ status doc, status < 200 ∨ 300 ≤ status →
        handleFetch (some t) (.response status doc) reader = (.fetchFailed, true)) ∧
      respStatus .fetchFailed = 502 := by
  refine ⟨?_, rfl, rfl, by decide, ?_, rfl⟩
  · simp only [checkTarget] at hv
    simp [handleFetch, hv]
  · intro status doc hs
    simp only [checkTarget] at hv
    simp [handleFetch, hv, hs]

/-- C5 witness: at a concrete valid target, a network error yields 500 and a
404 upstream status yields 502. -/
theorem c5_network_error_is_500_witness :
    checkTarget (some "http://example.com/") = true ∧
      (handleFetch (some "http://example.com/") .netError reader0 = (.serverError, true) ∧
        respStatus .serverError = 500 ∧
        errorBody .serverError = some "\x7b\"error\":\"Server error\"\x7d" ∧
        Response.serverError ≠ Response.fetchFailed ∧
        (∀ status doc, status < 200 ∨ 300 ≤ status →
          handleFetch (some "http://example.com/") (.response status doc) reader0 =
            (.fetchFailed, true)) ∧
        respStatus .fetchFailed = 502) :=
  ⟨by decide, c5_network_error_is_500 "http://example.com/" reader0 (by decide)⟩

/-- C6: when the extractor returns an article with non-empty content, the
extraction branch is chosen, the content fragment is the h1 of the title
(empty when null) followed by the extracted content, this shape survives
sanitization at its head, and the fallback branch is not used for the same
request. -/
theorem c6_extraction_used (t : String)
    (reader : NodeList → Option (Option String × NodeList)) (doc : NodeList)
    (ti : Option String) (x : Node) (xs : NodeList)
    (hr : reader (cleanForest doc) = some (ti, .cons x xs)) :
    selectContent t reader doc = .extracted ti (.cons x xs) ∧
      chosenHtml (.extracted ti (.cons x xs)) =
        .cons (.elem "h1" false [] (.cons (.text (ti.getD "")) .nil))
          (.cons (.text "\n") (.cons x xs)) ∧
      sanitizeL (chosenHtml (selectContent t reader doc)) =
        .cons (.elem "h1" false [] (.cons (.text (ti.getD "")) .nil))
          (.cons (.text "\n") (sanitizeL (.cons x xs))) ∧
      renderPage t reader doc =
        wrapperPage t (sanitizeL (chosenHtml (selectContent t reader doc))) ∧
      ∀ b, selectContent t reader doc ≠ .fallbackOf b := by
  have hsel : selectContent t reader doc = .extracted ti (.cons x xs) := by
    unfold selectContent
    rw [hr]
  refine ⟨hsel, rfl, ?_, rfl, ?_⟩
  · rw [hsel]
    rfl
  · intro b hb
    rw [hsel] at hb
    exact Chosen.noConfusion hb

/-- C6 witness: a concrete reader extracting a one-paragraph article titled
T on a plain document. -/
theorem c6_extraction_used_witness :
    reader1 (cleanForest exDocPlain) =
        some (some "T", .cons (.elem "p" false [] (.cons (.text "hello") .nil)) .nil) ∧
      (selectContent "http://e.com/" reader1 exDocPlain =
          .extracted (some "T") (.cons (.elem "p" false [] (.cons (.text "hello") .nil)) .nil) ∧
        chosenHtml (.extracted (some "T")
            (.cons (.elem "p" false [] (.cons (.text "hello") .nil)) .nil)) =
          .cons (.elem "h1" false [] (.cons (.text ((some "T").getD "")) .nil))
            (.cons (.text "\n") (.cons (.elem "p" false [] (.cons (.text "hello") .nil)) .nil)) ∧
        sanitizeL (chosenHtml (selectContent "http://e.com/" reader1 exDocPlain)) =
          .cons (.elem "h1" false [] (.cons (.text ((some "T").getD "")) .nil))
            (.cons (.text "\n")
              (sanitizeL (.cons (.elem "p" false [] (.cons (.text "hello") .nil)) .nil))) ∧
        renderPage "http://e.com/" reader1 exDocPlain =
          wrapperPage "http://e.com/"
            (sanitizeL (chosenHtml (selectContent "http://e.com/" reader1 exDocPlain))) ∧
        ∀ b, selectContent "http://e.com/" reader1 exDocPlain ≠ .fallbackOf b) :=
  ⟨by decide,
    c6_extraction_used "http://e.com/" reader1 exDocPlain (some "T")
      (.elem "p" false [] (.cons (.text "hello") .nil)) .nil (by decide)⟩

/-! ### C7: the fallback rewrite -/

theorem absAnchor_rel (target : String) (attrs : List (String × String)) :
    getAttr (absAnchorAttrs target attrs) "rel" = some "noopener noreferrer" := by
  unfold absAnchorAttrs
  rw [getAttr_setAttr_ne _ _ _ _ (by decide)]
  exact getAttr_setAttr_self _ _ _

theorem absAnchor_target (target : String) (attrs : List (String × String)) :
    getAttr (absAnchorAttrs target attrs) "target" = some "_blank" := by
  unfold absAnchorAttrs
  exact getAttr_setAttr_self _ _ _

theorem absAnchor_linkOk (target : String) (attrs : List (String × String)) :
    linkAttrOk target (absAnchorAttrs target attrs) "href" = true := by
  unfold linkAttrOk absAnchorAttrs
  rw [getAttr_setAttr_ne _ _ _ _ (by decide), getAttr_setAttr_ne _ _ _ _ (by decide)]
  cases hh : getAttr attrs "href" with
  | none => simp only [hh]
  | some h =>
      simp only [hh]
      by_cases he : h = ""
      · rw [if_pos he]
        rw [hh, he]
        simp
      · rw [if_neg he, getAttr_setAttr_self]
        rcases toAbsolute_cases h target with hsch | ⟨heq, hres⟩
        · simp [hsch]
        · rw [heq]
          simp [hres]

theorem absImg_linkOk (target : String) (attrs : List (String × String)) :
    linkAttrOk target (absImgAttrs target attrs) "src" = true := by
  unfold linkAttrOk absImgAttrs
  cases hh : getAttr attrs "src" with
  | none => simp only [hh]
  | some h =>
      simp only [hh]
      by_cases he : h = ""
      · rw [if_pos he]
        rw [hh, he]
        simp
      · rw [if_neg he, getAttr_setAttr_self]
        rcases toAbsolute_cases h target with hsch | ⟨heq, hres⟩
        · simp [hsch]
        · rw [heq]
          simp [hres]

theorem ancImg_attrs_ok (target tag : String) (svg : Bool) (attrs : List (String × String)) :
    ancImgBadP target tag svg (absAttrs target tag attrs) = false := by
  unfold ancImgBadP absAttrs
  by_cases ha : tag = "a"
  · subst ha
    simp [absAnchor_rel, absAnchor_target, absAnchor_linkOk]
  · by_cases hi : tag = "img"
    · subst hi
      simp [ha, absImg_linkOk]
    · simp [ha, hi]

mutual
theorem abs_ancImgOk_node (target : String) :
    ∀ n, elemSatN (ancImgBadP target) (absN target n) = false
  | .text _ => rfl
  | .elem tag svg attrs cs => by
      simp [absN, elemSatN, ancImg_attrs_ok]
      exact abs_ancImgOk_list target cs
theorem abs_ancImgOk_list (target : String) :
    ∀ f, elemSatL (ancImgBadP target) (absL target f) = false
  | .nil => rfl
  | .cons n ns => by
      simp [absL, elemSatL]
      exact ⟨abs_ancImgOk_node target n, abs_ancImgOk_list target ns⟩
end

/-- C7 counterexample: an anchor with an empty href.  An empty reference is
resolvable against the target (the URL constructor returns the base), yet
the fallback rewrite skips it because the empty string is falsy, so the
fallback output carries an href that is neither rewritten nor
scheme-qualified, refuting the claim that every resolvable href is rewritten
to an absolute URL. -/
theorem c7_counterexample :
    selectContent "http://e.com/" reader0 exDocEmptyHref =
        .fallbackOf (NodeList.ofList [.elem "a" false
          [("href", ""), ("rel", "noopener noreferrer"), ("target", "_blank")]
          (NodeList.cons (.text "x") .nil)]) ∧
      urlResolve "" "http://e.com/" = some "http://e.com/" ∧
      hasScheme "" = false := by decide

/-- C7 amended: when extraction yields nothing the fallback is used, and in
the absolutized fallback document every anchor carries the forced rel
noopener noreferrer and target _blank and an href that is absent, empty
(left as is because an empty href is falsy), scheme-qualified, or
unresolvable against the target (left unchanged); every image src likewise
is absent, empty, scheme-qualified or unresolvable.  The body content used
by the fallback satisfies the same obligations, and on the extraction path
the content is passed through without any of this rewriting. -/
theorem c7_fallback_rewrites (t : String)
    (reader : NodeList → Option (Option String × NodeList)) (doc : NodeList) :
    (reader (cleanForest doc) = none →
      selectContent t reader doc = .fallbackOf (fallbackBody t doc)) ∧
    (∀ f, elemSatL (ancImgBadP t) (absL t f) = false) ∧
    (∀ cs, findBodyL (absL t (cleanForest doc)) = some cs →
      fallbackBody t doc = cs ∧ elemSatL (ancImgBadP t) cs = false) ∧
    (∀ ti c, reader (cleanForest doc) = some (ti, c) → c ≠ .nil →
      chosenHtml (selectContent t reader doc) =
        .cons (.elem "h1" false [] (.cons (.text (ti.getD "")) .nil)) (.cons (.text "\n") c)) := by
  refine ⟨?_, abs_ancImgOk_list t, ?_, ?_⟩
  · intro hr
    unfold selectContent
    rw [hr]
  · intro cs hcs
    constructor
    · unfold fallbackBody
      rw [hcs]
    · cases hq : elemSatL (ancImgBadP t) cs with
      | false => rfl
      | true =>
          have := findBody_sat_list (ancImgBadP t) _ cs hcs hq
          rw [abs_ancImgOk_list] at this
          cases this
  · intro ti c hr hc
    cases c with
    | nil => exact absurd rfl hc
    | cons x xs =>
        unfold selectContent
        rw [hr]
        rfl

/-! ### C4: link values are absolute or original -/

theorem mem_setAttr (l : List (String × String)) (n v : String) (p : String × String)
    (h : p ∈ setAttr l n v) : p = (n, v) ∨ p ∈ l := by
  induction l with
  | nil =>
      simp [setAttr] at h
      exact Or.inl h
  | cons q rest ih =>
      obtain ⟨a, b⟩ := q
      by_cases han : a = n
      · subst han
        rw [show setAttr ((a, b) :: rest) a v = (a, v) :: rest by simp [setAttr]] at h
        rcases List.mem_cons.mp h with h | h
        · exact Or.inl h
        · exact Or.inr (List.mem_cons_of_mem _ h)
      · rw [show setAttr ((a, b) :: rest) n v = (a, b) :: setAttr rest n v by
          simp [setAttr, han]] at h
        rcases List.mem_cons.mp h with h | h
        · exact Or.inr (by simp [h])
        · rcases ih h with h' | h'
          · exact Or.inl h'
          · exact Or.inr (List.mem_cons_of_mem _ h')

theorem linkBad_attrs_ok (vals : List String) (tag : String) (svg : Bool)
    (attrs : List (String × String))
    (h : ∀ p ∈ attrs, (p.1 = "href" ∨ p.1 = "src") → hasScheme p.2 = true ∨ p.2 ∈ vals) :
    linkBadP vals tag svg attrs = false := by
  unfold linkBadP
  cases hq : attrs.any (fun p =>
      (decide (p.1 = "href") || decide (p.1 = "src")) &&
        !(hasScheme p.2 || decide (p.2 ∈ vals))) with
  | false => rfl
  | true =>
      rw [List.any_eq_true] at hq
      obtain ⟨p, hp, hb⟩ := hq
      rw [Bool.and_eq_true] at hb
      obtain ⟨hn, hvv⟩ := hb
      have hname : p.1 = "href" ∨ p.1 = "src" := by simpa using hn
      simp only [Bool.not_eq_eq_eq_not, Bool.not_true, Bool.or_eq_false_iff] at hvv
      rcases h p hp hname with hs | hm
      · exact absurd hvv.1 (by simp [hs])
      · exact absurd hvv.2 (by simp [hm])

/-- The values of the href/src pairs of the absolutized attributes are
scheme-qualified or among the original values. -/
theorem absAttrs_vals (t tag : String) (attrs : List (String × String)) (vals : List String)
    (h : ∀ p ∈ attrs, (p.1 = "href" ∨ p.1 = "src") → p.2 ∈ vals) :
    ∀ p ∈ absAttrs t tag attrs, (p.1 = "href" ∨ p.1 = "src") →
      hasScheme p.2 = true ∨ p.2 ∈ vals := by
  intro p hp hname
  unfold absAttrs at hp
  by_cases ha : tag = "a"
  · rw [if_pos ha] at hp
    unfold absAnchorAttrs at hp
    rcases mem_setAttr _ _ _ _ hp with rfl | hp
    · exact absurd hname (by decide)
    rcases mem_setAttr _ _ _ _ hp with rfl | hp
    · exact absurd hname (by decide)
    rcases hh : getAttr attrs "href" with _ | h0
    · rw [hh] at hp
      dsimp only at hp
      exact Or.inr (h p hp hname)
    · rw [hh] at hp
      dsimp only at hp
      by_cases he : h0 = ""
      · rw [if_pos he] at hp
        exact Or.inr (h p hp hname)
      · rw [if_neg he] at hp
        rcases mem_setAttr _ _ _ _ hp with rfl | hp
        · rcases toAbsolute_cases h0 t with hs | ⟨heq, _⟩
          · exact Or.inl hs
          · rw [show ("href", toAbsolute h0 t).2 = h0 from heq]
            exact Or.inr (h ("href", h0) (getAttr_mem hh) (Or.inl rfl))
        · exact Or.inr (h p hp hname)
  · rw [if_neg ha] at hp
    by_cases hi : tag = "img"
    · rw [if_pos hi] at hp
      unfold absImgAttrs at hp
      rcases hh : getAttr attrs "src" with _ | s0
      · rw [hh] at hp
        dsimp only at hp
        exact Or.inr (h p hp hname)
      · rw [hh] at hp
        dsimp only at hp
        by_cases he : s0 = ""
        · rw [if_pos he] at hp
          exact Or.inr (h p hp hname)
        · rw [if_neg he] at hp
          rcases mem_setAttr _ _ _ _ hp with rfl | hp
          · rcases toAbsolute_cases s0 t with hs | ⟨heq, _⟩
            · exact Or.inl hs
            · rw [show ("src", toAbsolute s0 t).2 = s0 from heq]
              exact Or.inr (h ("src", s0) (getAttr_mem hh) (Or.inr rfl))
          · exact Or.inr (h p hp hname)
    · rw [if_neg hi] at hp
      exact Or.inr (h p hp hname)

mutual
theorem linkOk_node (vals : List String) :
    ∀ n, (∀ v, v ∈ linkValsN n → v ∈ vals) → elemSatN (linkBadP vals) n = false
  | .text _, _ => rfl
  | .elem tag svg attrs cs, h => by
      simp only [elemSatN, Bool.or_eq_false_iff]
      constructor
      · apply linkBad_attrs_ok
        intro p hp hname
        refine Or.inr (h p.2 ?_)
        unfold linkValsN
        rw [List.mem_append]
        exact Or.inl (List.mem_filterMap.mpr ⟨p, hp, by simp [hname]⟩)
      · apply linkOk_list vals cs
        intro v hv
        apply h v
        unfold linkValsN
        rw [List.mem_append]
        exact Or.inr hv
theorem linkOk_list (vals : List String) :
    ∀ f, (∀ v, v ∈ linkValsL f → v ∈ vals) → elemSatL (linkBadP vals) f = false
  | .nil, _ => rfl
  | .cons n ns, h => by
      simp only [elemSatL, Bool.or_eq_false_iff]
      exact ⟨linkOk_node vals n (fun v hv => h v (by
          unfold linkValsL
          rw [List.mem_append]
          exact Or.inl hv)),
        linkOk_list vals ns (fun v hv => h v (by
          unfold linkValsL
          rw [List.mem_append]
          exact Or.inr hv))⟩
end

mutual
theorem abs_linkOk_node (t : String) (vals : List String) :
    ∀ n, (∀ v, v ∈ linkValsN n → v ∈ vals) →
      elemSatN (linkBadP vals) (absN t n) = false
  | .text _, _ => rfl
  | .elem tag svg attrs cs, h => by
      simp only [absN, elemSatN, Bool.or_eq_false_iff]
      constructor
      · apply linkBad_attrs_ok
        apply absAttrs_vals
        intro p hp hname
        refine h p.2 ?_
        unfold linkValsN
        rw [List.mem_append]
        exact Or.inl (List.mem_filterMap.mpr ⟨p, hp, by simp [hname]⟩)
      · apply abs_linkOk_list t vals cs
        intro v hv
        apply h v
        unfold linkValsN
        rw [List.mem_append]
        exact Or.inr hv
theorem abs_linkOk_list (t : String) (vals : List String) :
    ∀ f, (∀ v, v ∈ linkValsL f → v ∈ vals) →
      elemSatL (linkBadP vals) (absL t f) = false
  | .nil, _ => rfl
  | .cons n ns, h => by
      simp only [absL, elemSatL, Bool.or_eq_false_iff]
      exact ⟨abs_linkOk_node t vals n (fun v hv => h v (by
          unfold linkValsL
          rw [List.mem_append]
          exact Or.inl hv)),
        abs_linkOk_list t vals ns (fun v hv => h v (by
          unfold linkValsL
          rw [List.mem_append]
          exact Or.inr hv))⟩
end

mutual
theorem strip_linkVals_node (rm : String → Bool → List (String × String) → Bool) :
    ∀ n m v, stripNode rm n = some m → v ∈ linkValsN m → v ∈ linkValsN n
  | .text s, m, v, h, hv => by
      simp [stripNode] at h
      subst h
      exact hv
  | .elem tag svg attrs cs, m, v, h, hv => by
      cases hr : rm tag svg attrs with
      | true => simp [stripNode, hr] at h
      | false =>
          simp [stripNode, hr] at h
          subst h
          unfold linkValsN at hv ⊢
          rw [List.mem_append] at hv ⊢
          rcases hv with hv | hv
          · exact Or.inl hv
          · exact Or.inr (strip_linkVals_list rm cs v hv)
theorem strip_linkVals_list (rm : String → Bool → List (String × String) → Bool) :
    ∀ f v, v ∈ linkValsL (stripL rm f) → v ∈ linkValsL f
  | .nil, v, hv => hv
  | .cons n ns, v, hv => by
      cases hs : stripNode rm n with
      | some m =>
          rw [stripL, hs] at hv
          unfold linkValsL at hv ⊢
          rw [List.mem_append] at hv ⊢
          rcases hv with hv | hv
          · exact Or.inl (strip_linkVals_node rm n m v hs hv)
          · exact Or.inr (strip_linkVals_list rm ns v hv)
      | none =>
          rw [stripL, hs] at hv
          unfold linkValsL
          rw [List.mem_append]
          exact Or.inr (strip_linkVals_list rm ns v hv)
end

/-- C4: every href or src value appearing anywhere in the final response
page is scheme-qualified (absolute, including the wrapper link built with
encodeURI of the validated target) or is one of the original values of the
fetched document or of the extractor output, left unchanged. -/
theorem c4_links_absolute_or_unchanged (t : String)
    (reader : NodeList → Option (Option String × NodeList)) (doc : NodeList)
    (hv : validTarget t = true) :
    elemSatN (linkBadP (linkValsL doc ++ readerLinkVals reader doc))
      (renderPage t reader doc) = false := by
  have hsub2 : ∀ v, v ∈ linkValsL (cleanForest doc) → v ∈ linkValsL doc := fun v hv2 =>
    strip_linkVals_list rmStructP doc v (strip_linkVals_list rmAdP (stripL rmStructP doc) v hv2)
  have hfb : elemSatL (linkBadP (linkValsL doc ++ readerLinkVals reader doc))
      (fallbackBody t doc) = false := by
    unfold fallbackBody
    cases hcs : findBodyL (absL t (cleanForest doc)) with
    | some cs =>
        cases hq : elemSatL (linkBadP (linkValsL doc ++ readerLinkVals reader doc)) cs with
        | false => rfl
        | true =>
            have h1 := findBody_sat_list _ _ cs hcs hq
            have h2 := abs_linkOk_list t (linkValsL doc ++ readerLinkVals reader doc)
              (cleanForest doc)
              (fun v hv2 => List.mem_append.mpr (Or.inl (hsub2 v hv2)))
            rw [h2] at h1
            exact Bool.noConfusion h1
    | none =>
        exact linkOk_list _ doc (fun v hv2 => List.mem_append.mpr (Or.inl hv2))
  have hcontent : elemSatL (linkBadP (linkValsL doc ++ readerLinkVals reader doc))
      (chosenHtml (selectContent t reader doc)) = false := by
    cases hre : reader (cleanForest doc) with
    | none =>
        rw [show selectContent t reader doc = .fallbackOf (fallbackBody t doc) from by
          unfold selectContent; rw [hre]]
        exact hfb
    | some p =>
        obtain ⟨ti, c⟩ := p
        cases c with
        | nil =>
            rw [show selectContent t reader doc = .fallbackOf (fallbackBody t doc) from by
              unfold selectContent; rw [hre]]
            exact hfb
        | cons x xs =>
            rw [show selectContent t reader doc = .extracted ti (.cons x xs) from by
              unfold selectContent; rw [hre]]
            have hrv : readerLinkVals reader doc = linkValsL (.cons x xs) := by
              unfold readerLinkVals
              rw [hre]
            have hc : elemSatL (linkBadP (linkValsL doc ++ readerLinkVals reader doc))
                (.cons x xs) = false :=
              linkOk_list _ (.cons x xs)
                (fun v hv2 => List.mem_append.mpr (Or.inr (hrv ▸ hv2)))
            rw [show elemSatL (linkBadP (linkValsL doc ++ readerLinkVals reader doc))
                (.cons x xs) =
                (elemSatN (linkBadP (linkValsL doc ++ readerLinkVals reader doc)) x ||
                  elemSatL (linkBadP (linkValsL doc ++ readerLinkVals reader doc)) xs)
              from rfl] at hc
            rw [Bool.or_eq_false_iff] at hc
            simp [chosenHtml, elemSatL, elemSatN, hc.1, hc.2,
              show linkBadP (linkValsL doc ++ readerLinkVals reader doc) "h1" false [] = false
                from rfl]
  have hsan : elemSatL (linkBadP (linkValsL doc ++ readerLinkVals reader doc))
      (sanitizeL (chosenHtml (selectContent t reader doc))) = false := by
    cases hq : elemSatL (linkBadP (linkValsL doc ++ readerLinkVals reader doc))
        (sanitizeL (chosenHtml (selectContent t reader doc))) with
    | false => rfl
    | true =>
        have h2 := sanitize_transfer_list
          (linkBadP (linkValsL doc ++ readerLinkVals reader doc))
          (linkBadP (linkValsL doc ++ readerLinkVals reader doc))
          (fun tg svg attrs _ hq2 => by
            unfold linkBadP at hq2 ⊢
            unfold attrFilter at hq2
            exact any_of_filter_any attrs _ _ hq2) _ hq
        rw [hcontent] at h2
        exact Bool.noConfusion h2
  unfold renderPage
  refine wrapper_elemSat _ t _ rfl rfl rfl rfl rfl rfl rfl rfl rfl rfl rfl ?_ rfl rfl rfl hsan
  have hsch := encodeURI_hasScheme t hv
  simp [linkBadP, hsch]

/-- C4 witness: a concrete valid target with the fallback path. -/
theorem c4_links_absolute_or_unchanged_witness :
    validTarget "http://e.com/" = true ∧
      elemSatN (linkBadP (linkValsL exDocPlain ++ readerLinkVals reader0 exDocPlain))
        (renderPage "http://e.com/" reader0 exDocPlain) = false :=
  ⟨by decide, c4_links_absolute_or_unchanged "http://e.com/" reader0 exDocPlain (by decide)⟩

/-! ### C1: heuristic ad removal -/

/-- C1 counterexample: a document whose body element itself matches the ad
patterns (class ads) containing a paragraph with class ad-banner.  Both
match the patterns, so the claim says neither may appear in the final
response; but removing the body makes doc.body null, the fallback then uses
the raw fetched HTML, and the ad-banner paragraph reappears in the final
page. -/
theorem c1_counterexample :
    elemSatL adAttrP exDocBodyAd = true ∧
      elemSatN adAttrP (renderPage "http://e.com/" reader0 exDocBodyAd) = true := by decide

/-- C1 amended: provided the cleaned document still has a body element (when
the body itself is removed and extraction fails, the raw fetched HTML is the
fallback and matching elements can reappear) and the extractor only returns
content occurring in the cleaned document, the final page contains no
element the sweep matches: none whose id, or whose class when the className
property is a plain string, contains one of the patterns (an element outside
the HTML namespace is checked only by id).  Removal takes whole subtrees:
every subtree of a stripped forest is the strip image of a subtree of the
input.  The first matching pattern settles the check for an element: the
remaining patterns cannot change the outcome. -/
theorem c1_ad_elements_absent (t : String)
    (reader : NodeList → Option (Option String × NodeList)) (doc : NodeList)
    (hreader : ∀ ti c, reader (cleanForest doc) = some (ti, c) →
      ∀ n, occursL n c = true → occursL n (cleanForest doc) = true)
    (hbody : (findBodyL (absL t (cleanForest doc))).isSome = true) :
    elemSatN rmAdP (renderPage t reader doc) = false ∧
      (∀ rm f x, occursL x (stripL rm f) = true →
        ∃ y, occursL y f = true ∧ stripNode rm y = some x) ∧
      (∀ id cls, (patAdvert id || patAdvert cls) = true → adMatch id cls = true) := by
  refine ⟨?_, fun rm f x hx => strip_prov_list rm f x hx, ?_⟩
  · have hclean : elemSatL rmAdP (cleanForest doc) = false :=
      strip_not_sat_list rmAdP (stripL rmStructP doc)
    have hfb : elemSatL rmAdP (fallbackBody t doc) = false := by
      obtain ⟨cs, hcs⟩ := Option.isSome_iff_exists.mp hbody
      rw [show fallbackBody t doc = cs from by unfold fallbackBody; rw [hcs]]
      cases hq : elemSatL rmAdP cs with
      | false => rfl
      | true =>
          have h1 := findBody_sat_list rmAdP _ cs hcs hq
          have h2 := abs_transfer_list t rmAdP rmAdP
            (fun tag svg attrs hq2 => by rw [rmAdP_absAttrs] at hq2; exact hq2)
            (cleanForest doc) h1
          rw [hclean] at h2
          exact Bool.noConfusion h2
    have hcontent : elemSatL rmAdP (chosenHtml (selectContent t reader doc)) = false := by
      cases hre : reader (cleanForest doc) with
      | none =>
          rw [show selectContent t reader doc = .fallbackOf (fallbackBody t doc) from by
            unfold selectContent; rw [hre]]
          exact hfb
      | some p =>
          obtain ⟨ti, c⟩ := p
          cases c with
          | nil =>
              rw [show selectContent t reader doc = .fallbackOf (fallbackBody t doc) from by
                unfold selectContent; rw [hre]]
              exact hfb
          | cons x xs =>
              rw [show selectContent t reader doc = .extracted ti (.cons x xs) from by
                unfold selectContent; rw [hre]]
              have hc : elemSatL rmAdP (.cons x xs) = false := by
                cases hq : elemSatL rmAdP (.cons x xs) with
                | false => rfl
                | true =>
                    obtain ⟨m, hm, hp⟩ := elemSat_occurs_list rmAdP _ hq
                    have ho := hreader ti (.cons x xs) hre m hm
                    have h2 := occurs_elemSat_list rmAdP _ m ho hp
                    rw [hclean] at h2
                    exact Bool.noConfusion h2
              rw [show elemSatL rmAdP (.cons x xs) =
                  (elemSatN rmAdP x || elemSatL rmAdP xs) from rfl] at hc
              rw [Bool.or_eq_false_iff] at hc
              simp [chosenHtml, elemSatL, elemSatN, hc.1, hc.2,
                show rmAdP "h1" false [] = false from rfl]
    have hsan : elemSatL rmAdP (sanitizeL (chosenHtml (selectContent t reader doc))) = false := by
      cases hq : elemSatL rmAdP (sanitizeL (chosenHtml (selectContent t reader doc))) with
      | false => rfl
      | true =>
          have h2 := sanitize_transfer_list rmAdP rmAdP
            (fun tg svg attrs _ hq2 => by rw [rmAdP_filter] at hq2; exact hq2) _ hq
          rw [hcontent] at h2
          exact Bool.noConfusion h2
    unfold renderPage
    exact wrapper_elemSat rmAdP t _ rfl rfl rfl rfl rfl rfl rfl rfl rfl rfl rfl rfl rfl rfl
      rfl hsan
  · intro id cls h
    unfold adMatch adPatterns
    simp [List.any_cons, h]

/-- C1 witness: a plain document whose body survives, with a reader that
extracts nothing. -/
theorem c1_ad_elements_absent_witness :
    (∀ ti c, reader0 (cleanForest exDocPlain) = some (ti, c) →
      ∀ n, occursL n c = true → occursL n (cleanForest exDocPlain) = true) ∧
      (findBodyL (absL "http://e.com/" (cleanForest exDocPlain))).isSome = true ∧
      (elemSatN rmAdP (renderPage "http://e.com/" reader0 exDocPlain) = false ∧
        (∀ rm f x, occursL x (stripL rm f) = true →
          ∃ y, occursL y f = true ∧ stripNode rm y = some x) ∧
        (∀ id cls, (patAdvert id || patAdvert cls) = true → adMatch id cls = true)) :=
  ⟨fun _ _ h => Option.noConfusion h, by decide,
    c1_ad_elements_absent "http://e.com/" reader0 exDocPlain
      (fun _ _ h => Option.noConfusion h) (by decide)⟩

end AdFreeProxy
